import Mathlib

/-!
Shallow embedding of the trade-aggregation servers of this repository:

* `src/unnamed/part_000` — the multi-exchange historical-backfill server
  (trades table, symbols table, resumable backfill jobs, top-clusters,
  current-price fallback chain).  Modelled in namespace `Agg`.
* `src/server/index.js` — the minute-bin "trend origin" server
  (minute_bins table, jobs table, windowed backfill, top-zones,
  current-price with DB fallback).  Modelled in namespace `Trend`.

Modelling conventions: JavaScript numbers are rationals; a number that can
be `NaN` or `undefined` is an `Option ℚ` with `none` for NaN/undefined;
epoch-millisecond timestamps are naturals.  `Math.random()` draws are
passed in explicitly as a string parameter.  The SQLite tables are
association lists keyed exactly as in the SQL schema.
-/

/-- JS `x || y` on optional naturals: `undefined` and `0` are falsy. -/
def jsOrNat (x y : Option Nat) : Option Nat :=
  match x with
  | some n => if n = 0 then y else some n
  | none => y

/-- JS `x || y` on optional numbers: `undefined`, `NaN` and `0` are falsy
(`none` stands for both `undefined` and `NaN`). -/
def jsOrQ (x y : Option ℚ) : Option ℚ :=
  match x with
  | some v => if v = 0 then y else some v
  | none => y

/-- JS `x || y` for an optional string against a string default:
`undefined` and the empty string are falsy. -/
def jsOrStr (x : Option String) (y : String) : String :=
  match x with
  | some s => if s = "" then y else s
  | none => y

/-- JS `ts || now` on epoch timestamps: `undefined` and `0` are falsy. -/
def jsTsOr (x : Option Nat) (now : Nat) : Nat :=
  match x with
  | some n => if n = 0 then now else n
  | none => now

/-- JS `Math.round`: round half toward positive infinity. -/
def jsRound (x : ℚ) : ℤ := ⌊x + 1 / 2⌋

/-- ASCII lower-casing, `String.prototype.toLowerCase` on the ASCII side
strings the venues emit. -/
def toLowerJs (s : String) : String := String.mk (s.data.map Char.toLower)

/-- One-hour backfill window, `const windowMs = 60 * 60 * 1000` in both servers. -/
def windowMs : Nat := 3600000

theorem windowMs_pos : 0 < windowMs := by decide

namespace Agg

/-- A row of the `trades` table of src/unnamed/part_000
(`id TEXT PRIMARY KEY, exchange, symbol, price REAL, qty REAL, side, ts`).
`price` and `qty` are `Option ℚ` because the connectors can produce NaN. -/
structure Trade where
  id : String
  exchange : String
  symbol : String
  price : Option ℚ
  qty : Option ℚ
  side : String
  ts : Nat
deriving DecidableEq

/-- Lookup in the `symbols` table (`symbol TEXT PRIMARY KEY, last_seen_ts`). -/
def lookupSym : List (String × Nat) → String → Option Nat
  | [], _ => none
  | (s, v) :: rest, q => if s = q then some v else lookupSym rest q

/-- The symbols upsert of `insertTrade`:
`INSERT INTO symbols (symbol, last_seen_ts) VALUES (?, ?) ON CONFLICT(symbol)
 DO UPDATE SET last_seen_ts = excluded.last_seen_ts
 WHERE excluded.last_seen_ts > symbols.last_seen_ts`. -/
def upsertSymbol : List (String × Nat) → String → Nat → List (String × Nat)
  | [], s, ts => [(s, ts)]
  | (s0, v0) :: rest, s, ts =>
      if s0 = s then (s0, if v0 < ts then ts else v0) :: rest
      else (s0, v0) :: upsertSymbol rest s ts

/-- The persistent state touched by `insertTrade`: the `trades` table
(keyed by `id`) and the `symbols` table. -/
structure Store where
  trades : List Trade
  symbols : List (String × Nat)
deriving DecidableEq

def emptyStore : Store := ⟨[], []⟩

/-- `insertTrade(trade)` of src/unnamed/part_000:
`INSERT OR IGNORE INTO trades ...` keyed on `id`, then the conditional
symbols upsert with `trade.ts || Date.now()`. -/
def insertTrade (st : Store) (t : Trade) (now : Nat) : Store :=
  { trades :=
      if st.trades.any (fun u => decide (u.id = t.id)) then st.trades
      else st.trades ++ [t]
    symbols := upsertSymbol st.symbols t.symbol (jsTsOr (some t.ts) now) }

/-- A raw binance futures aggTrade as consumed by the `binance` branch of
`runBackfill` (fields `a`, `aggregateId`, `tradeId`, `p`, `q`/`qty`, `m`, `T`). -/
structure BinanceRaw where
  a : Option Nat
  aggregateId : Option Nat
  tradeId : Option Nat
  p : Option ℚ
  q : Option ℚ
  qty : Option ℚ
  m : Bool
  T : Option Nat
deriving DecidableEq

/-- The trade built by the `binance` branch of `runBackfill`:
`id` is `` `${symbol}-binance-${t.a || t.aggregateId || t.tradeId || Math.random()}` ``,
`rand` being the `Math.random()` draw used when every id field is falsy. -/
def normalizeBinance (symbol : String) (t : BinanceRaw) (rand : String) (now : Nat) : Trade :=
  { id := symbol ++ "-binance-" ++
      (match jsOrNat t.a (jsOrNat t.aggregateId t.tradeId) with
       | some n => toString n
       | none => rand)
    exchange := "binance"
    symbol := symbol
    price := t.p
    qty := jsOrQ t.q (jsOrQ t.qty (some 0))
    side := if t.m then "sell" else "buy"
    ts := jsTsOr t.T now }

/-- A raw binance spot trade as consumed by the `binance-spot` branch of
`runBackfill` (fields `id`, `price`, `qty`, `isBuyerMaker`, `time`). -/
structure BinanceSpotRaw where
  id : Option Nat
  price : Option ℚ
  qty : Option ℚ
  isBuyerMaker : Bool
  time : Option Nat
deriving DecidableEq

/-- The trade built by the `binance-spot` branch of `runBackfill`.
Note the source computes `qty: parseFloat(t.qty || t.qty)`: when `t.qty`
is missing the fallback is again the missing field, so `parseFloat`
receives `undefined` and the quantity is NaN (`none`), not `0`. -/
def normalizeBinanceSpot (symbol : String) (t : BinanceSpotRaw) (rand : String) (now : Nat) :
    Trade :=
  { id := symbol ++ "-binance-spot-" ++
      (match jsOrNat t.id none with
       | some n => toString n
       | none => rand)
    exchange := "binance-spot"
    symbol := symbol
    price := t.price
    qty := jsOrQ t.qty t.qty
    side := if t.isBuyerMaker then "sell" else "buy"
    ts := jsTsOr t.time now }

/-- `roundToBucket(price, bucketSize)` of src/unnamed/part_000:
`Math.round(price / bucketSize) * bucketSize`. -/
def roundToBucket (price bucketSize : ℚ) : ℚ :=
  (jsRound (price / bucketSize) : ℚ) * bucketSize

/-- A row returned by the top-clusters query
`SELECT price, qty, ts FROM trades WHERE ...` (already filtered by
symbol, exchange set and period). -/
structure ClusterRow where
  price : ℚ
  qty : ℚ
  ts : Nat
deriving DecidableEq

/-- The per-bucket accumulator of `/api/top-clusters`:
`{ price: pb, volume, lastTs }`. -/
structure Bucket where
  price : ℚ
  volume : ℚ
  lastTs : Nat
deriving DecidableEq

/-- One step of the `/api/top-clusters` bucket fold: look the bucket key up,
defaulting to `{ price: pb, volume: 0, lastTs: 0 }`, then
`v.volume += r.qty; v.lastTs = Math.max(v.lastTs, r.ts)`. -/
def upsertCluster : List (ℚ × Bucket) → ℚ → ClusterRow → List (ℚ × Bucket)
  | [], k, r => [(k, ⟨k, r.qty, r.ts⟩)]
  | (k0, v) :: rest, k, r =>
      if k0 = k then (k0, ⟨v.price, v.volume + r.qty, max v.lastTs r.ts⟩) :: rest
      else (k0, v) :: upsertCluster rest k r

/-- The bucket aggregation loop of `/api/top-clusters`: every row is folded
into the bucket keyed `roundToBucket(r.price, bucket)`. -/
def aggregateClusters (rows : List ClusterRow) (b : ℚ) : List (ℚ × Bucket) :=
  rows.foldl (fun m r => upsertCluster m (roundToBucket r.price b) r) []

/-- Total volume held by a bucket map. -/
def totalVolume (m : List (ℚ × Bucket)) : ℚ :=
  (m.map (fun p => p.2.volume)).sum

/-- Volume stored under one bucket key (0 when the key is absent). -/
def volAt : List (ℚ × Bucket) → ℚ → ℚ
  | [], _ => 0
  | (k0, v) :: rest, k => if k0 = k then v.volume else volAt rest k

/-- A row of the `backfill_jobs` table of src/unnamed/part_000
(`id, symbol, exchange, start_ts, end_ts, current_ts, status, message`). -/
structure JobRow where
  id : String
  symbol : String
  exchange : String
  start_ts : Nat
  end_ts : Nat
  current_ts : Nat
  status : String
  message : String
deriving DecidableEq

/-- The property bag accepted by `updateJob(jobId, props)`. -/
structure JobProps where
  current_ts : Option Nat
  status : Option String
  message : Option String

/-- `updateJob` of src/unnamed/part_000: merge the props over the stored
row (`props.current_ts !== undefined ? props.current_ts : row.current_ts`,
`props.status || row.status`, `props.message || row.message`) and write it
back. -/
def updateJob (r : JobRow) (p : JobProps) : JobRow :=
  { r with
    current_ts := p.current_ts.getD r.current_ts
    status := jsOrStr p.status r.status
    message := jsOrStr p.message r.message }

/-- The row inserted by `createBackfillJob`:
`INSERT INTO backfill_jobs (... current_ts, status ...) VALUES (..., startTs, 'pending', ...)`
(the `message` column is left NULL, modelled as `""`). -/
def createBackfillJob (jobId symbol exchange : String) (startTs endTs : Nat) : JobRow :=
  ⟨jobId, symbol, exchange, startTs, endTs, startTs, "pending", ""⟩

/-- Everything observable about one run of `runBackfill`: the final job
row, the ordered list of rows written to `backfill_jobs` (`trail`), and the
window starts whose fetch was attempted (`attempted`). -/
structure RunResult where
  row : JobRow
  trail : List JobRow
  attempted : List Nat
deriving DecidableEq

/-- The `while (current <= end)` loop of `runBackfill` in
src/unnamed/part_000.  `fetch w` is the outcome of the whole
`pRetry(() => fetch...(...), { retries })` call for the window starting at
`w`: `Except.ok` once some attempt succeeds, `Except.error e` when the
bounded retries are exhausted (`e` is `String(errWindow)`), in which case
the inner catch writes `status='failed'` with the message.  The rethrown
error is caught again by the outer catch, which writes the same failed
row once more.  On success the cursor advances to `wEnd + 1` and a
`running` checkpoint is written; after the loop the job is marked
`done` with `current_ts = end`. -/
def runLoop (fetch : Nat → Except String Unit) (endTs : Nat) (row : JobRow) (cur : Nat) :
    RunResult :=
  if cur ≤ endTs then
    let wEnd := min endTs (cur + windowMs - 1)
    match fetch cur with
    | Except.ok _ =>
        let row1 := updateJob row ⟨some (wEnd + 1), some "running", none⟩
        let rest := runLoop fetch endTs row1 (wEnd + 1)
        ⟨rest.row, row1 :: rest.trail, cur :: rest.attempted⟩
    | Except.error e =>
        let row1 := updateJob row ⟨none, some "failed", some e⟩
        let row2 := updateJob row1 ⟨none, some "failed", some e⟩
        ⟨row2, [row1, row2], [cur]⟩
  else
    let rowD := updateJob row ⟨some endTs, some "done", some "completed"⟩
    ⟨rowD, [rowD], []⟩
termination_by endTs + 1 - cur
decreasing_by
  have := windowMs_pos
  omega

/-- `runBackfill(jobId)` of src/unnamed/part_000: read the row, compute
`current = Number(jobRow.current_ts) || Number(jobRow.start_ts)`, write the
initial `running` row, then run the window loop. -/
def runBackfill (fetch : Nat → Except String Unit) (row : JobRow) : RunResult :=
  let cur := if row.current_ts = 0 then row.start_ts else row.current_ts
  let row0 := updateJob row ⟨none, some "running", none⟩
  let res := runLoop fetch row.end_ts row0 cur
  ⟨res.row, row0 :: res.trail, res.attempted⟩

/-- `/api/current-price` of src/unnamed/part_000: try the Binance ticker,
then OKX, then Bybit; the first venue whose response carries a price wins
and its name is reported as `source`; if all three fail the request ends
with `500 { error: 'no price source available' }`.  Each argument is
`some p` when that venue's ticker call succeeded with price `p`. -/
def currentPrice (binance okx bybit : Option ℚ) : Except String (ℚ × String) :=
  match binance with
  | some p => Except.ok (p, "binance")
  | none =>
      match okx with
      | some p => Except.ok (p, "okx")
      | none =>
          match bybit with
          | some p => Except.ok (p, "bybit")
          | none => Except.error "no price source available"

end Agg

/-- Stable insertion sort by a boolean "should come first" comparator,
modelling `Array.prototype.sort` with a two-argument comparator. -/
def insertSorted {α : Type} (le : α → α → Bool) (a : α) : List α → List α
  | [] => [a]
  | b :: l => if le a b then a :: b :: l else b :: insertSorted le a l

/-- Sort of a whole list by `insertSorted`. -/
def sortByJs {α : Type} (le : α → α → Bool) : List α → List α
  | [] => []
  | a :: l => insertSorted le a (sortByJs le l)

namespace Trend

/-- A row of the `minute_bins` table of src/server/index.js
(`id TEXT PRIMARY KEY, symbol, exchange, minute_ts, bucket, buy_vol, sell_vol, last_ts`). -/
structure Bin where
  id : String
  symbol : String
  exchange : String
  minute_ts : Nat
  bucket : ℚ
  buy_vol : ℚ
  sell_vol : ℚ
  last_ts : Nat
deriving DecidableEq

/-- Lookup of a minute bin by its primary key. -/
def lookupBin : List Bin → String → Option Bin
  | [], _ => none
  | b :: rest, k => if b.id = k then some b else lookupBin rest k

/-- The prepared `upsertBin` statement of src/server/index.js:
`INSERT ... ON CONFLICT(id) DO UPDATE SET
 buy_vol = minute_bins.buy_vol + @buy_vol,
 sell_vol = minute_bins.sell_vol + @sell_vol,
 last_ts = MAX(minute_bins.last_ts, @last_ts)`. -/
def upsertBin : List Bin → Bin → List Bin
  | [], obj => [obj]
  | b :: rest, obj =>
      if b.id = obj.id then
        { b with
          buy_vol := b.buy_vol + obj.buy_vol
          sell_vol := b.sell_vol + obj.sell_vol
          last_ts := max b.last_ts obj.last_ts } :: rest
      else b :: upsertBin rest obj

/-- A normalized trade as produced by the fetchers of src/server/index.js
(`{ price, qty, side, ts }`).  NaN prices/quantities are outside this
model; the fetchers' own NaN behaviour is modelled separately by
`normalizeOKX`. -/
structure Trade where
  price : ℚ
  qty : ℚ
  side : String
  ts : Nat
deriving DecidableEq

/-- `toMinuteTs(ts)` of src/server/index.js: `Math.floor(ts/60000)*60000`. -/
def toMinuteTs (ts : Nat) : Nat := ts / 60000 * 60000

/-- `bucketPrice(price, bucketSize)` of src/server/index.js:
`Math.round(price / bucketSize) * bucketSize`. -/
def bucketPrice (price bucketSize : ℚ) : ℚ :=
  (jsRound (price / bucketSize) : ℚ) * bucketSize

/-- The bin object built for one trade inside `ingestTrades`:
key `` `${symbol}::${exchange}::${minute_ts}::${bucket}` ``, the traded
quantity credited to `buy_vol` or `sell_vol` according to `side`, and
`last_ts: t.ts || now`. -/
def tradeToBin (symbol exchange : String) (bucketSize : ℚ) (now : Nat) (t : Trade) : Bin :=
  let minute := toMinuteTs (jsTsOr (some t.ts) now)
  let bucket := bucketPrice t.price bucketSize
  { id := symbol ++ "::" ++ exchange ++ "::" ++ toString minute ++ "::" ++ toString bucket
    symbol := symbol
    exchange := exchange
    minute_ts := minute
    bucket := bucket
    buy_vol := if t.side = "buy" then t.qty else 0
    sell_vol := if t.side = "sell" then t.qty else 0
    last_ts := jsTsOr (some t.ts) now }

/-- `ingestTrades(trades, symbol, exchange, bucketSize)` of
src/server/index.js: fold every trade of the batch into `minute_bins`
through `upsertBin`. -/
def ingestTrades (bins : List Bin) (trades : List Trade) (symbol exchange : String)
    (bucketSize : ℚ) (now : Nat) : List Bin :=
  trades.foldl (fun m t => upsertBin m (tradeToBin symbol exchange bucketSize now t)) bins

/-- A raw OKX trade as consumed by `fetchOKXTrades` of src/server/index.js
(fields `px`/`p`, `sz`, `side`, `ts`). -/
structure OkxRaw where
  px : Option ℚ
  p : Option ℚ
  sz : Option ℚ
  side : Option String
  ts : Option Nat
deriving DecidableEq

/-- The output shape of the fetcher `map` callbacks, with NaN-able
numbers kept as `Option ℚ`. -/
structure RawNorm where
  price : Option ℚ
  qty : Option ℚ
  side : String
  ts : Nat
deriving DecidableEq

/-- The `map` callback of `fetchOKXTrades` in src/server/index.js:
`price: parseFloat(t.px || t.p)`, `qty: parseFloat(t.sz || t.sz || 0)`,
`side: (String(t.side || '').toLowerCase()==='sell') ? 'sell' : 'buy'`,
`ts: Number(t.ts) || Date.now()`. -/
def normalizeOKX (t : OkxRaw) (now : Nat) : RawNorm :=
  { price := jsOrQ t.px t.p
    qty := jsOrQ t.sz (jsOrQ t.sz (some 0))
    side := if toLowerJs (jsOrStr t.side "") = "sell" then "sell" else "buy"
    ts := jsTsOr t.ts now }

/-- A row of the `jobs` table of src/server/index.js
(`id, symbol, exchange, status, created_at, updated_at, message`). -/
structure Job where
  id : String
  symbol : String
  exchange : String
  status : String
  created_at : Nat
  updated_at : Nat
  message : String
deriving DecidableEq

/-- The row inserted by `POST /api/backfill` in src/server/index.js:
`insertJob.run({ id: jid, ..., status: 'queued', ..., message: 'queued' })`. -/
def mkJob (jid symbol exchange : String) (now : Nat) : Job :=
  ⟨jid, symbol, exchange, "queued", now, now, "queued"⟩

/-- Everything observable about one run of `runBackfillJob`: the final
status and message, the resulting `minute_bins`, the ordered
`(status, message)` writes to the `jobs` row, and the attempted window
starts. -/
structure JobRun where
  status : String
  message : String
  bins : List Bin
  trail : List (String × String)
  attempted : List Nat
deriving DecidableEq

/-- The window starts visited by the
`for (let s = from; s < now; s += windowMs)` loop of `runBackfillJob`:
`from, from + windowMs, ...` while `s < now`. -/
def jobWindows (s now : Nat) : List Nat :=
  if s < now then s :: jobWindows (s + windowMs) now else []
termination_by now - s
decreasing_by
  have := windowMs_pos
  omega

/-- The body of the `for (let s = from; s < now; s += windowMs)` loop of
`runBackfillJob` in src/server/index.js, iterated over the precomputed
window starts.  `hasF` is whether `FETCHERS[exchange]` exists (checked
inside the loop — an unknown exchange fails the job on the first window);
`fetch s` is the outcome of the whole
`pRetry(() => fetcher(symbol, 1000, s, e), { retries: 2, ... })` call for
the window starting at `s`.  A window whose retries are exhausted is only
logged: the job row keeps `status='running'` with the error recorded in
`message`, and the loop continues with the next window.  After the last
window the job is written `done` / `'backfill complete'`. -/
def jobLoop (fetch : Nat → Except String (List Trade)) (hasF : Bool)
    (symbol exchange : String) (bucketSize : ℚ) (now : Nat) :
    List Nat → List Bin → JobRun
  | [], bins => ⟨"done", "backfill complete", bins, [("done", "backfill complete")], []⟩
  | s :: ws, bins =>
      if hasF then
        match fetch s with
        | Except.ok trades =>
            let bins1 :=
              if trades.isEmpty then bins
              else ingestTrades bins trades symbol exchange bucketSize now
            let msg :=
              if trades.isEmpty then "no trades window " ++ toString s
              else "processed window " ++ toString s
            let rest := jobLoop fetch hasF symbol exchange bucketSize now ws bins1
            ⟨rest.status, rest.message, rest.bins, ("running", msg) :: rest.trail,
              s :: rest.attempted⟩
        | Except.error e =>
            let msg := "error window " ++ toString s ++ ": " ++ e
            let rest := jobLoop fetch hasF symbol exchange bucketSize now ws bins
            ⟨rest.status, rest.message, rest.bins, ("running", msg) :: rest.trail,
              s :: rest.attempted⟩
      else
        ⟨"failed", "no fetcher for " ++ exchange, bins,
          [("failed", "no fetcher for " ++ exchange)], []⟩

/-- `runBackfillJob(jobId, symbol, exchange, years, bucketSize)` of
src/server/index.js: write the initial `running` / `'starting'` row, then
run the window loop from `fromTs` (`now - years * 365 * 24 * 3600 * 1000`). -/
def runBackfillJob (fetch : Nat → Except String (List Trade)) (hasF : Bool)
    (symbol exchange : String) (bucketSize : ℚ) (bins : List Bin) (fromTs now : Nat) :
    JobRun :=
  let res := jobLoop fetch hasF symbol exchange bucketSize now (jobWindows fromTs now) bins
  { res with trail := ("running", "starting") :: res.trail }

/-- `/api/current-price` of src/server/index.js: try the Binance ticker
only; on failure fall back to the most recent `minute_bins` bucket price
for the symbol (`SELECT bucket ... ORDER BY minute_ts DESC LIMIT 1`); when
both are unavailable answer `404 { error: 'price not available' }`.  No
`source` field is ever included in the response, hence the
`Option String` component, which is always `none`. -/
def currentPrice (binance : Option ℚ) (lastBinBucket : Option ℚ) :
    Except String (ℚ × Option String) :=
  match binance with
  | some p => Except.ok (p, none)
  | none =>
      match lastBinBucket with
      | some b => Except.ok (b, none)
      | none => Except.error "price not available"

/-- A zone of `/api/top-zones`:
`{ price, buy, sell, delta, volume, lastTs }`. -/
structure Zone where
  price : ℚ
  buy : ℚ
  sell : ℚ
  delta : ℚ
  volume : ℚ
  lastTs : Nat
deriving DecidableEq

/-- One group of the `GROUP BY bucket` aggregation of `/api/top-zones`:
`SUM(buy_vol), SUM(sell_vol), MAX(last_ts)` per bucket. -/
structure BucketAgg where
  bucket : ℚ
  buy_vol : ℚ
  sell_vol : ℚ
  lastTs : Nat
deriving DecidableEq

/-- Folding one `minute_bins` row into the `GROUP BY bucket` result. -/
def upsertAgg : List BucketAgg → Bin → List BucketAgg
  | [], r => [⟨r.bucket, r.buy_vol, r.sell_vol, r.last_ts⟩]
  | a :: rest, r =>
      if a.bucket = r.bucket then
        ⟨a.bucket, a.buy_vol + r.buy_vol, a.sell_vol + r.sell_vol,
          max a.lastTs r.last_ts⟩ :: rest
      else a :: upsertAgg rest r

/-- The `GROUP BY bucket` aggregation of `/api/top-zones` over the
`minute_bins` rows that survived the symbol/period/exchange filter. -/
def groupByBucket (bins : List Bin) : List BucketAgg :=
  bins.foldl upsertAgg []

/-- The zone built from one bucket group:
`delta = buy - sell`, `volume = buy + sell`. -/
def mkZone (a : BucketAgg) : Zone :=
  ⟨a.bucket, a.buy_vol, a.sell_vol, a.buy_vol - a.sell_vol, a.buy_vol + a.sell_vol, a.lastTs⟩

/-- `/api/top-zones` of src/server/index.js with the default
`sort=delta_desc`: aggregate per bucket, sort by descending `|delta|`,
truncate to `limit`.  There is no `minSeparation` deduplication anywhere
in the pipeline. -/
def topZones (bins : List Bin) (limit : Nat) : List Zone :=
  (sortByJs (fun a b => decide (|b.delta| ≤ |a.delta|)) ((groupByBucket bins).map mkZone)).take
    limit

end Trend

/-- Position of a job status in the lifecycle
`pending/queued → running → done | failed`. -/
def statusRank : String → Nat
  | "running" => 1
  | "done" => 2
  | "failed" => 2
  | _ => 0

/-! ### Lemmas about the top-clusters bucket fold (src/unnamed/part_000) -/

theorem Agg.totalVolume_upsertCluster (m : List (ℚ × Agg.Bucket)) (k : ℚ) (r : Agg.ClusterRow) :
    Agg.totalVolume (Agg.upsertCluster m k r) = Agg.totalVolume m + r.qty := by
  induction m with
  | nil => simp [Agg.upsertCluster, Agg.totalVolume]
  | cons hd tl ih =>
      obtain ⟨k0, v⟩ := hd
      by_cases h : k0 = k
      · simp only [Agg.upsertCluster, if_pos h, Agg.totalVolume, List.map_cons, List.sum_cons]
        ring
      · simp only [Agg.upsertCluster, if_neg h, Agg.totalVolume, List.map_cons, List.sum_cons]
          at ih ⊢
        rw [ih]
        ring

theorem Agg.volAt_upsertCluster (m : List (ℚ × Agg.Bucket)) (k : ℚ) (r : Agg.ClusterRow)
    (q : ℚ) :
    Agg.volAt (Agg.upsertCluster m k r) q = Agg.volAt m q + (if k = q then r.qty else 0) := by
  induction m with
  | nil =>
      by_cases h : k = q <;> simp [Agg.upsertCluster, Agg.volAt, h]
  | cons hd tl ih =>
      obtain ⟨k0, v⟩ := hd
      by_cases h : k0 = k
      · subst h
        by_cases hq : k0 = q
        · simp only [Agg.upsertCluster, if_pos rfl, Agg.volAt, if_pos hq]
        · simp [Agg.upsertCluster, Agg.volAt, hq]
      · by_cases hq : k0 = q
        · subst hq
          have hkq : ¬ k = k0 := fun hh => h hh.symm
          simp [Agg.upsertCluster, h, Agg.volAt, hkq]
        · simp [Agg.upsertCluster, h, Agg.volAt, hq, ih]

theorem Agg.totalVolume_aggregate_loop (b : ℚ) :
    ∀ (rows : List Agg.ClusterRow) (m : List (ℚ × Agg.Bucket)),
      Agg.totalVolume
          (rows.foldl (fun acc r => Agg.upsertCluster acc (Agg.roundToBucket r.price b) r) m)
        = Agg.totalVolume m + (rows.map (fun r => r.qty)).sum := by
  intro rows
  induction rows with
  | nil => simp
  | cons r rest ih =>
      intro m
      simp only [List.foldl_cons, List.map_cons, List.sum_cons]
      rw [ih, Agg.totalVolume_upsertCluster]
      ring

theorem Agg.volAt_aggregate_loop (b : ℚ) (k : ℚ) :
    ∀ (rows : List Agg.ClusterRow) (m : List (ℚ × Agg.Bucket)),
      Agg.volAt
          (rows.foldl (fun acc r => Agg.upsertCluster acc (Agg.roundToBucket r.price b) r) m) k
        = Agg.volAt m k
          + ((rows.filter (fun r => decide (Agg.roundToBucket r.price b = k))).map
              (fun r => r.qty)).sum := by
  intro rows
  induction rows with
  | nil => simp
  | cons r rest ih =>
      intro m
      simp only [List.foldl_cons, List.filter_cons, decide_eq_true_eq]
      rw [ih, Agg.volAt_upsertCluster]
      by_cases h : Agg.roundToBucket r.price b = k
      · rw [if_pos h, if_pos h]
        simp only [List.map_cons, List.sum_cons]
        ring
      · rw [if_neg h, if_neg h]
        ring

/-- C4: for every bucket size `b > 0` and every finite trade set, the
`/api/top-clusters` fold assigns each trade with price `p` to exactly the
bucket `round(p/b)*b` — the volume stored under any key `k` is precisely
the summed quantity of the input rows whose `roundToBucket` equals `k` —
and total bucket volume equals the total input quantity (conservation). -/
theorem bucket_assignment_conservation (rows : List Agg.ClusterRow) (b : ℚ) (hb : 0 < b) :
    Agg.totalVolume (Agg.aggregateClusters rows b) = (rows.map (fun r => r.qty)).sum
    ∧ ∀ k : ℚ,
        Agg.volAt (Agg.aggregateClusters rows b) k
          = ((rows.filter (fun r => decide (Agg.roundToBucket r.price b = k))).map
              (fun r => r.qty)).sum := by
  constructor
  · rw [Agg.aggregateClusters, Agg.totalVolume_aggregate_loop]
    simp [Agg.totalVolume]
  · intro k
    rw [Agg.aggregateClusters, Agg.volAt_aggregate_loop]
    simp [Agg.volAt]

/-- Witness for C4: two concrete trades at prices 10.5 and 10.4 with
bucket size 1 land in the buckets 11 and 10, and volume is conserved. -/
theorem bucket_assignment_conservation_witness :
    (0 : ℚ) < 1
    ∧ Agg.totalVolume (Agg.aggregateClusters [⟨21/2, 3, 1⟩, ⟨52/5, 4, 2⟩] 1)
        = (([⟨21/2, 3, 1⟩, ⟨52/5, 4, 2⟩] : List Agg.ClusterRow).map (fun r => r.qty)).sum
    ∧ Agg.volAt (Agg.aggregateClusters [⟨21/2, 3, 1⟩, ⟨52/5, 4, 2⟩] 1) 11
        = ((([⟨21/2, 3, 1⟩, ⟨52/5, 4, 2⟩] : List Agg.ClusterRow).filter
            (fun r => decide (Agg.roundToBucket r.price 1 = 11))).map (fun r => r.qty)).sum :=
  ⟨by decide,
   (bucket_assignment_conservation [⟨21/2, 3, 1⟩, ⟨52/5, 4, 2⟩] 1 (by decide)).1,
   (bucket_assignment_conservation [⟨21/2, 3, 1⟩, ⟨52/5, 4, 2⟩] 1 (by decide)).2 11⟩

/-! ### Lemmas about the symbols table (src/unnamed/part_000) -/

theorem Agg.lookupSym_upsertSymbol_self (m : List (String × Nat)) (s : String) (ts : Nat) :
    Agg.lookupSym (Agg.upsertSymbol m s ts) s
      = some (match Agg.lookupSym m s with
              | some v => max v ts
              | none => ts) := by
  induction m with
  | nil => simp [Agg.upsertSymbol, Agg.lookupSym]
  | cons hd tl ih =>
      obtain ⟨s0, v0⟩ := hd
      by_cases h : s0 = s
      · subst h
        have hmax : (if v0 < ts then ts else v0) = max v0 ts := by split <;> omega
        simp [Agg.upsertSymbol, Agg.lookupSym, hmax]
      · simp [Agg.upsertSymbol, Agg.lookupSym, h, ih]

theorem Agg.lookupSym_upsertSymbol_other (m : List (String × Nat)) (s q : String) (ts : Nat)
    (h : q ≠ s) :
    Agg.lookupSym (Agg.upsertSymbol m s ts) q = Agg.lookupSym m q := by
  induction m with
  | nil =>
      have hsq : s ≠ q := fun hh => h hh.symm
      simp [Agg.upsertSymbol, Agg.lookupSym, hsq]
  | cons hd tl ih =>
      obtain ⟨s0, v0⟩ := hd
      by_cases hs : s0 = s
      · subst hs
        have hq2 : s0 ≠ q := fun hh => h hh.symm
        simp [Agg.upsertSymbol, Agg.lookupSym, hq2]
      · simp [Agg.upsertSymbol, Agg.lookupSym, hs, ih]

/-- C6: the Symbol Index entry `last_seen_ts` only moves up.  First
conjunct: one `insertTrade` rewrites the stored value to the maximum of
the old value and the effective trade timestamp (`trade.ts || Date.now()`),
so it is overwritten only when the incoming timestamp is strictly
greater.  Second conjunct: across any batch of inserts, in any order, the
stored value never decreases. -/
theorem symbol_index_monotone :
    (∀ (st : Agg.Store) (t : Agg.Trade) (now v : Nat),
        Agg.lookupSym st.symbols t.symbol = some v →
        Agg.lookupSym (Agg.insertTrade st t now).symbols t.symbol
          = some (max v (jsTsOr (some t.ts) now)))
    ∧ ∀ (batch : List (Agg.Trade × Nat)) (st : Agg.Store) (s : String) (v : Nat),
        Agg.lookupSym st.symbols s = some v →
        ∃ w, Agg.lookupSym
              ((batch.foldl (fun acc p => Agg.insertTrade acc p.1 p.2) st)).symbols s = some w
          ∧ v ≤ w := by
  constructor
  · intro st t now v hv
    simp only [Agg.insertTrade]
    rw [Agg.lookupSym_upsertSymbol_self, hv]
  · intro batch
    induction batch with
    | nil =>
        intro st s v hv
        exact ⟨v, hv, le_refl v⟩
    | cons p rest ih =>
        intro st s v hv
        simp only [List.foldl_cons]
        by_cases h : s = p.1.symbol
        · have hv2 : Agg.lookupSym st.symbols p.1.symbol = some v := by
            rw [← h]; exact hv
          have h1 : Agg.lookupSym (Agg.insertTrade st p.1 p.2).symbols s
              = some (max v (jsTsOr (some p.1.ts) p.2)) := by
            simp only [Agg.insertTrade]
            rw [h, Agg.lookupSym_upsertSymbol_self, hv2]
          obtain ⟨w, hw, hle⟩ := ih (Agg.insertTrade st p.1 p.2) s _ h1
          exact ⟨w, hw, le_trans (le_max_left v _) hle⟩
        · have h1 : Agg.lookupSym (Agg.insertTrade st p.1 p.2).symbols s = some v := by
            simp only [Agg.insertTrade]
            rw [Agg.lookupSym_upsertSymbol_other _ _ _ _ h]
            exact hv
          obtain ⟨w, hw, hle⟩ := ih (Agg.insertTrade st p.1 p.2) s v h1
          exact ⟨w, hw, hle⟩

/-- Witness for C6: a store whose index holds 5 for BTCUSDT, an insert at
timestamp 10, and a two-trade batch. -/
theorem symbol_index_monotone_witness :
    (Agg.lookupSym (⟨[], [("BTCUSDT", 5)]⟩ : Agg.Store).symbols "BTCUSDT" = some 5
      ∧ Agg.lookupSym
          (Agg.insertTrade ⟨[], [("BTCUSDT", 5)]⟩ ⟨"i", "binance", "BTCUSDT", some 10, some 1, "buy", 10⟩ 0).symbols
          "BTCUSDT" = some (max 5 (jsTsOr (some 10) 0)))
    ∧ ∃ w, Agg.lookupSym
          (([(⟨"i", "binance", "BTCUSDT", some 10, some 1, "buy", 10⟩, 0),
             (⟨"i2", "binance", "BTCUSDT", some 10, some 1, "buy", 3⟩, 0)] :
              List (Agg.Trade × Nat)).foldl
            (fun acc p => Agg.insertTrade acc p.1 p.2)
            (⟨[], [("BTCUSDT", 5)]⟩ : Agg.Store)).symbols "BTCUSDT" = some w
        ∧ 5 ≤ w :=
  ⟨⟨by decide,
    symbol_index_monotone.1 ⟨[], [("BTCUSDT", 5)]⟩
      ⟨"i", "binance", "BTCUSDT", some 10, some 1, "buy", 10⟩ 0 5 (by decide)⟩,
   symbol_index_monotone.2 _ ⟨[], [("BTCUSDT", 5)]⟩ "BTCUSDT" 5 (by decide)⟩

/-! ### Lemmas about trade-insert idempotence (src/unnamed/part_000) -/

theorem Agg.insertTrade_has_id (st : Agg.Store) (t : Agg.Trade) (now : Nat) :
    (Agg.insertTrade st t now).trades.any (fun u => decide (u.id = t.id)) = true := by
  simp only [Agg.insertTrade]
  by_cases h : st.trades.any (fun u => decide (u.id = t.id)) = true
  · rw [if_pos h]
    exact h
  · rw [if_neg h]
    simp [List.any_append]

/-- C3 (amended): when the raw binance record carries a truthy venue-native
id (`t.a || t.aggregateId || t.tradeId` is not falsy), the synthetic trade
identity is independent of the `Math.random()` draw and of the fetch time,
so normalizing and inserting the same raw record twice leaves exactly the
trades of the first insert — the second insert is a silent no-op on the
`trades` table. -/
theorem insert_idempotent_native_id (symbol : String) (t : Agg.BinanceRaw)
    (r1 r2 : String) (n1 n2 now1 now2 : Nat) (st : Agg.Store)
    (hid : jsOrNat t.a (jsOrNat t.aggregateId t.tradeId) ≠ none) :
    (Agg.normalizeBinance symbol t r1 n1).id = (Agg.normalizeBinance symbol t r2 n2).id
    ∧ (Agg.insertTrade (Agg.insertTrade st (Agg.normalizeBinance symbol t r1 n1) now1)
          (Agg.normalizeBinance symbol t r2 n2) now2).trades
        = (Agg.insertTrade st (Agg.normalizeBinance symbol t r1 n1) now1).trades := by
  obtain ⟨n, hn⟩ := Option.ne_none_iff_exists'.mp hid
  have hids : (Agg.normalizeBinance symbol t r2 n2).id
      = (Agg.normalizeBinance symbol t r1 n1).id := by
    simp [Agg.normalizeBinance, hn]
  refine ⟨hids.symm, ?_⟩
  have hany := Agg.insertTrade_has_id st (Agg.normalizeBinance symbol t r1 n1) now1
  simp only [Agg.insertTrade] at hany ⊢
  rw [hids, if_pos hany]

/-- Witness for C3: a raw record with aggregate id 5 inserted twice under
two different random draws stores a single trade. -/
theorem insert_idempotent_native_id_witness :
    jsOrNat (⟨some 5, none, none, some 10, some 2, none, false, some 1000⟩ :
        Agg.BinanceRaw).a
        (jsOrNat (⟨some 5, none, none, some 10, some 2, none, false, some 1000⟩ :
            Agg.BinanceRaw).aggregateId
          (⟨some 5, none, none, some 10, some 2, none, false, some 1000⟩ :
              Agg.BinanceRaw).tradeId) ≠ none
    ∧ (Agg.insertTrade (Agg.insertTrade Agg.emptyStore
          (Agg.normalizeBinance "BTCUSDT"
            ⟨some 5, none, none, some 10, some 2, none, false, some 1000⟩ "0.1" 0) 0)
          (Agg.normalizeBinance "BTCUSDT"
            ⟨some 5, none, none, some 10, some 2, none, false, some 1000⟩ "0.2" 0) 0).trades
        = (Agg.insertTrade Agg.emptyStore
            (Agg.normalizeBinance "BTCUSDT"
              ⟨some 5, none, none, some 10, some 2, none, false, some 1000⟩ "0.1" 0) 0).trades :=
  ⟨by decide,
   (insert_idempotent_native_id "BTCUSDT"
      ⟨some 5, none, none, some 10, some 2, none, false, some 1000⟩
      "0.1" "0.2" 0 0 0 0 Agg.emptyStore (by decide)).2⟩

/-- Counterexample for C3: a raw binance record with no id field gets a
`Math.random()`-based identity, so two inserts of the same raw record
store two distinct trades — the identity is not deterministic from
venue-native fields. -/
theorem insert_duplicate_missing_native_id :
    (Agg.insertTrade (Agg.insertTrade Agg.emptyStore
          (Agg.normalizeBinance "BTCUSDT"
            ⟨none, none, none, some 10, some 2, none, false, some 1000⟩ "0.1" 0) 0)
          (Agg.normalizeBinance "BTCUSDT"
            ⟨none, none, none, some 10, some 2, none, false, some 1000⟩ "0.2" 0) 0).trades.length
      = 2
    ∧ (Agg.normalizeBinance "BTCUSDT"
          ⟨none, none, none, some 10, some 2, none, false, some 1000⟩ "0.1" 0).id
        ≠ (Agg.normalizeBinance "BTCUSDT"
            ⟨none, none, none, some 10, some 2, none, false, some 1000⟩ "0.2" 0).id := by
  decide

/-- C7: evaluation of the cited connectors at records with missing fields.
The `binance-spot` branch of `runBackfill` computes
`qty: parseFloat(t.qty || t.qty)` — when the raw record lacks `qty` the
fallback is again the missing field, so the stored quantity is NaN
(`none`), not the documented default `0`.  The OKX fetcher of
src/server/index.js, by contrast, does default a missing `sz` to `0` and a
missing `side` to `buy`. -/
theorem binance_spot_missing_qty_nan :
    (Agg.normalizeBinanceSpot "BTCUSDT" ⟨some 7, some 10, none, false, some 5⟩ "r" 99).qty
      = none
    ∧ (Agg.normalizeBinanceSpot "BTCUSDT" ⟨some 7, some 10, none, false, some 5⟩ "r" 99).qty
        ≠ some (0 : ℚ)
    ∧ (Trend.normalizeOKX ⟨some 10, none, none, none, some 5⟩ 99).qty = some 0
    ∧ (Trend.normalizeOKX ⟨some 10, none, none, none, some 5⟩ 99).side = "buy" := by
  decide

/-! ### The current-price resolvers -/

/-- C9 (amended): the multi-exchange resolver of src/unnamed/part_000
tries Binance, then OKX, then Bybit in that fixed order; the first venue
that answers wins and its name is reported as the `source`; when all three
fail the request gets the terminal error `'no price source available'`.
The resolver of src/server/index.js instead tries only Binance and falls
back to the last stored `minute_bins` bucket price; it reports no source
venue, and only when both are unavailable does it answer the terminal
`'price not available'`. -/
theorem current_price_ordered_fallback :
    (∀ (o y : Option ℚ) (p : ℚ), Agg.currentPrice (some p) o y = Except.ok (p, "binance"))
    ∧ (∀ (y : Option ℚ) (p : ℚ), Agg.currentPrice none (some p) y = Except.ok (p, "okx"))
    ∧ (∀ p : ℚ, Agg.currentPrice none none (some p) = Except.ok (p, "bybit"))
    ∧ Agg.currentPrice none none none = Except.error "no price source available"
    ∧ (∀ (db : Option ℚ) (p : ℚ), Trend.currentPrice (some p) db = Except.ok (p, none))
    ∧ (∀ b : ℚ, Trend.currentPrice none (some b) = Except.ok (b, none))
    ∧ Trend.currentPrice none none = Except.error "price not available" :=
  ⟨fun _ _ _ => rfl, fun _ _ => rfl, fun _ => rfl, rfl, fun _ _ => rfl, fun _ => rfl, rfl⟩

/-- Counterexample for C9: the resolver of src/server/index.js answers a
successful Binance lookup without naming the source venue, and on Binance
failure it falls back to the stored bucket price instead of querying a
second venue. -/
theorem trend_current_price_has_no_source :
    Trend.currentPrice (some 5) (some 7) = Except.ok (5, (none : Option String))
    ∧ Trend.currentPrice (some 5) (some 7) ≠ Except.ok (5, some "binance")
    ∧ Trend.currentPrice none (some 7) = Except.ok (7, (none : Option String)) :=
  ⟨rfl, by simp [Trend.currentPrice], rfl⟩

/-! ### Lemmas about the minute-bin upsert (src/server/index.js) -/

theorem Trend.lookupBin_upsertBin_self (m : List Trend.Bin) (obj b : Trend.Bin)
    (hb : Trend.lookupBin m obj.id = some b) :
    Trend.lookupBin (Trend.upsertBin m obj) obj.id
      = some { b with
                buy_vol := b.buy_vol + obj.buy_vol
                sell_vol := b.sell_vol + obj.sell_vol
                last_ts := max b.last_ts obj.last_ts } := by
  induction m with
  | nil => simp [Trend.lookupBin] at hb
  | cons hd tl ih =>
      by_cases h : hd.id = obj.id
      · simp only [Trend.lookupBin, if_pos h] at hb
        cases hb
        simp [Trend.upsertBin, Trend.lookupBin, h]
      · simp only [Trend.lookupBin, if_neg h] at hb
        simp [Trend.upsertBin, Trend.lookupBin, h, ih hb]

theorem Trend.lookupBin_upsertBin_other (m : List Trend.Bin) (obj : Trend.Bin) (k : String)
    (h : k ≠ obj.id) :
    Trend.lookupBin (Trend.upsertBin m obj) k = Trend.lookupBin m k := by
  induction m with
  | nil =>
      have h2 : obj.id ≠ k := fun hh => h hh.symm
      simp [Trend.upsertBin, Trend.lookupBin, h2]
  | cons hd tl ih =>
      by_cases hh : hd.id = obj.id
      · by_cases hk : hd.id = k
        · exact absurd (hk.symm.trans hh) h
        · have h2 : ¬ (obj.id = k) := fun hh2 => h hh2.symm
          simp [Trend.upsertBin, Trend.lookupBin, hh, hk, h2]
      · simp [Trend.upsertBin, Trend.lookupBin, hh, ih]

/-- C10: minute-bin accumulation.  First conjunct: when the keyed row
exists, one `upsertBin` rewrites it to exactly
`buy_vol + @buy_vol, sell_vol + @sell_vol, MAX(last_ts, @last_ts)`.
Second conjunct: across any ingested batch with non-negative quantities,
the stored `buy_vol` and `sell_vol` never decrease and `last_ts` is
non-decreasing. -/
theorem minute_bin_accumulation_monotone :
    (∀ (m : List Trend.Bin) (obj b : Trend.Bin),
        Trend.lookupBin m obj.id = some b →
        Trend.lookupBin (Trend.upsertBin m obj) obj.id
          = some { b with
                    buy_vol := b.buy_vol + obj.buy_vol
                    sell_vol := b.sell_vol + obj.sell_vol
                    last_ts := max b.last_ts obj.last_ts })
    ∧ ∀ (trades : List Trend.Trade) (bins : List Trend.Bin) (sym ex : String) (bsz : ℚ)
        (now : Nat) (k : String) (b : Trend.Bin),
        (∀ t ∈ trades, 0 ≤ t.qty) →
        Trend.lookupBin bins k = some b →
        ∃ c, Trend.lookupBin (Trend.ingestTrades bins trades sym ex bsz now) k = some c
          ∧ b.buy_vol ≤ c.buy_vol ∧ b.sell_vol ≤ c.sell_vol ∧ b.last_ts ≤ c.last_ts := by
  refine ⟨fun m obj b hb => Trend.lookupBin_upsertBin_self m obj b hb, ?_⟩
  intro trades
  induction trades with
  | nil =>
      intro bins sym ex bsz now k b _ hb
      exact ⟨b, hb, le_refl _, le_refl _, le_refl _⟩
  | cons t rest ih =>
      intro bins sym ex bsz now k b hq hb
      have hqt : 0 ≤ t.qty := hq t (List.mem_cons_self t rest)
      have hqrest : ∀ u ∈ rest, 0 ≤ u.qty := fun u hu => hq u (List.mem_cons_of_mem t hu)
      simp only [Trend.ingestTrades, List.foldl_cons]
      by_cases hk : k = (Trend.tradeToBin sym ex bsz now t).id
      · have hb2 : Trend.lookupBin bins (Trend.tradeToBin sym ex bsz now t).id = some b := by
          rw [← hk]; exact hb
        have h1 := Trend.lookupBin_upsertBin_self bins (Trend.tradeToBin sym ex bsz now t) b hb2
        rw [← hk] at h1
        obtain ⟨c, hc, hc1, hc2, hc3⟩ := ih (Trend.upsertBin bins (Trend.tradeToBin sym ex bsz now t))
          sym ex bsz now k _ hqrest h1
        refine ⟨c, hc, le_trans ?_ hc1, le_trans ?_ hc2, le_trans ?_ hc3⟩
        · show b.buy_vol ≤ b.buy_vol + (Trend.tradeToBin sym ex bsz now t).buy_vol
          have hge : (0:ℚ) ≤ (Trend.tradeToBin sym ex bsz now t).buy_vol := by
            simp only [Trend.tradeToBin]
            split <;> simp [hqt]
          linarith
        · show b.sell_vol ≤ b.sell_vol + (Trend.tradeToBin sym ex bsz now t).sell_vol
          have hge : (0:ℚ) ≤ (Trend.tradeToBin sym ex bsz now t).sell_vol := by
            simp only [Trend.tradeToBin]
            split <;> simp [hqt]
          linarith
        · exact le_max_left _ _
      · have h1 : Trend.lookupBin (Trend.upsertBin bins (Trend.tradeToBin sym ex bsz now t)) k
            = some b := by
          rw [Trend.lookupBin_upsertBin_other _ _ _ hk]
          exact hb
        exact ih (Trend.upsertBin bins (Trend.tradeToBin sym ex bsz now t))
          sym ex bsz now k b hqrest h1

/-- Witness for C10: a singleton batch re-ingested over the bin it created. -/
theorem minute_bin_accumulation_monotone_witness :
    ((∀ t ∈ ([⟨10, 2, "buy", 60123⟩] : List Trend.Trade), 0 ≤ t.qty)
      ∧ Trend.lookupBin [Trend.tradeToBin "BTCUSDT" "okx" 1 0 ⟨10, 2, "buy", 60123⟩]
          (Trend.tradeToBin "BTCUSDT" "okx" 1 0 ⟨10, 2, "buy", 60123⟩).id
        = some (Trend.tradeToBin "BTCUSDT" "okx" 1 0 ⟨10, 2, "buy", 60123⟩))
    ∧ (∃ c, Trend.lookupBin
          (Trend.ingestTrades [Trend.tradeToBin "BTCUSDT" "okx" 1 0 ⟨10, 2, "buy", 60123⟩]
            [⟨10, 2, "buy", 60123⟩] "BTCUSDT" "okx" 1 0)
          (Trend.tradeToBin "BTCUSDT" "okx" 1 0 ⟨10, 2, "buy", 60123⟩).id = some c
        ∧ (Trend.tradeToBin "BTCUSDT" "okx" 1 0 ⟨10, 2, "buy", 60123⟩).buy_vol ≤ c.buy_vol
        ∧ (Trend.tradeToBin "BTCUSDT" "okx" 1 0 ⟨10, 2, "buy", 60123⟩).sell_vol ≤ c.sell_vol
        ∧ (Trend.tradeToBin "BTCUSDT" "okx" 1 0 ⟨10, 2, "buy", 60123⟩).last_ts ≤ c.last_ts) :=
  ⟨⟨by intro t ht; simp at ht; subst ht; norm_num, by simp [Trend.lookupBin]⟩,
   minute_bin_accumulation_monotone.2 [⟨10, 2, "buy", 60123⟩]
     [Trend.tradeToBin "BTCUSDT" "okx" 1 0 ⟨10, 2, "buy", 60123⟩] "BTCUSDT" "okx" 1 0
     (Trend.tradeToBin "BTCUSDT" "okx" 1 0 ⟨10, 2, "buy", 60123⟩).id
     (Trend.tradeToBin "BTCUSDT" "okx" 1 0 ⟨10, 2, "buy", 60123⟩)
     (by intro t ht; simp at ht; subst ht; norm_num)
     (by simp [Trend.lookupBin])⟩

/-! ### Lemmas about the top-zones pipeline (src/server/index.js) -/

theorem insertSorted_perm {α : Type} (le : α → α → Bool) (a : α) (l : List α) :
    (insertSorted le a l).Perm (a :: l) := by
  induction l with
  | nil => simp [insertSorted]
  | cons b rest ih =>
      by_cases h : le a b = true
      · simp [insertSorted, h]
      · simp only [insertSorted, h]
        rw [if_neg]
        · exact List.Perm.trans (List.Perm.cons b ih) (List.Perm.swap a b rest)
        · simp [h]

theorem sortByJs_perm {α : Type} (le : α → α → Bool) (l : List α) :
    (sortByJs le l).Perm l := by
  induction l with
  | nil => simp [sortByJs]
  | cons a rest ih =>
      exact List.Perm.trans (insertSorted_perm le a (sortByJs le rest)) (List.Perm.cons a ih)

theorem Trend.mem_upsertAgg (m : List Trend.BucketAgg) (r : Trend.Bin) (x : Trend.BucketAgg)
    (hx : x ∈ Trend.upsertAgg m r) :
    x.bucket ∈ m.map (fun a => a.bucket) ∨ x.bucket = r.bucket := by
  induction m with
  | nil =>
      simp [Trend.upsertAgg] at hx
      subst hx
      simp
  | cons a rest ih =>
      by_cases h : a.bucket = r.bucket
      · simp only [Trend.upsertAgg, if_pos h] at hx
        rcases List.mem_cons.mp hx with h1 | h1
        · subst h1
          simp
        · exact Or.inl (by simp [List.mem_cons.mpr (Or.inr (List.mem_map_of_mem _ h1))])
      · simp only [Trend.upsertAgg, if_neg h] at hx
        rcases List.mem_cons.mp hx with h1 | h1
        · subst h1
          simp
        · rcases ih h1 with h2 | h2
          · exact Or.inl (by simp [h2])
          · exact Or.inr h2

theorem Trend.upsertAgg_pairwise (m : List Trend.BucketAgg) (r : Trend.Bin)
    (hm : m.Pairwise (fun a b => a.bucket ≠ b.bucket)) :
    (Trend.upsertAgg m r).Pairwise (fun a b => a.bucket ≠ b.bucket) := by
  induction m with
  | nil => simp [Trend.upsertAgg]
  | cons a rest ih =>
      obtain ⟨ha, hrest⟩ := List.pairwise_cons.mp hm
      by_cases h : a.bucket = r.bucket
      · simp only [Trend.upsertAgg, if_pos h]
        exact List.pairwise_cons.mpr ⟨ha, hrest⟩
      · simp only [Trend.upsertAgg, if_neg h]
        refine List.pairwise_cons.mpr ⟨?_, ih hrest⟩
        intro x hx
        rcases Trend.mem_upsertAgg rest r x hx with h2 | h2
        · obtain ⟨y, hy, hyb⟩ := List.mem_map.mp h2
          rw [← hyb]
          exact ha y hy
        · rw [h2]
          exact h

theorem Trend.groupByBucket_pairwise (bins : List Trend.Bin) :
    (Trend.groupByBucket bins).Pairwise (fun a b => a.bucket ≠ b.bucket) := by
  rw [Trend.groupByBucket]
  have hgen : ∀ (l : List Trend.Bin) (m : List Trend.BucketAgg),
      m.Pairwise (fun a b => a.bucket ≠ b.bucket) →
      (l.foldl Trend.upsertAgg m).Pairwise (fun a b => a.bucket ≠ b.bucket) := by
    intro l
    induction l with
    | nil => intro m hm; exact hm
    | cons r rest ih =>
        intro m hm
        exact ih (Trend.upsertAgg m r) (Trend.upsertAgg_pairwise m r hm)
  exact hgen bins [] (by simp)

/-- C8 (amended): the zone list returned by `/api/top-zones` contains at
most one zone per price bucket — the `GROUP BY bucket` aggregation, the
`|delta|` sort and the `limit` truncation keep bucket prices pairwise
distinct — but no `minSeparation`-based deduplication exists, so the only
separation guarantee between returned zones is that their bucket prices
differ. -/
theorem top_zones_prices_pairwise_distinct (bins : List Trend.Bin) (limit : Nat) :
    (Trend.topZones bins limit).Pairwise (fun z1 z2 => z1.price ≠ z2.price) := by
  have h0 : ((Trend.groupByBucket bins).map Trend.mkZone).Pairwise
      (fun z1 z2 => z1.price ≠ z2.price) := by
    rw [List.pairwise_map]
    have := Trend.groupByBucket_pairwise bins
    refine List.Pairwise.imp ?_ this
    intro a b hab
    simp only [Trend.mkZone]
    exact hab
  have hperm := sortByJs_perm (fun a b => decide (|b.delta| ≤ |a.delta|))
    ((Trend.groupByBucket bins).map Trend.mkZone)
  have h1 : (sortByJs (fun a b => decide (|b.delta| ≤ |a.delta|))
      ((Trend.groupByBucket bins).map Trend.mkZone)).Pairwise
        (fun z1 z2 => z1.price ≠ z2.price) :=
    h0.perm hperm.symm (fun hab => hab.symm)
  rw [Trend.topZones]
  exact List.Pairwise.sublist (List.take_sublist limit _) h1

/-- Counterexample for C8: two bins in adjacent price buckets 100 and 101
both survive `/api/top-zones` — the endpoint performs no
`minSeparation` deduplication, so zones one bucket apart are both
returned. -/
theorem top_zones_adjacent_buckets_both_returned :
    100 ∈ ((Trend.topZones
        [⟨"a", "S", "binance", 0, 100, 100, 0, 1000⟩,
         ⟨"b", "S", "binance", 0, 101, 0, 90, 1000⟩] 10).map (fun z => z.price))
    ∧ 101 ∈ ((Trend.topZones
        [⟨"a", "S", "binance", 0, 100, 100, 0, 1000⟩,
         ⟨"b", "S", "binance", 0, 101, 0, 90, 1000⟩] 10).map (fun z => z.price))
    ∧ (101 : ℚ) - 100 = 1 := by
  have hg : Trend.groupByBucket
      [⟨"a", "S", "binance", 0, 100, 100, 0, 1000⟩,
       ⟨"b", "S", "binance", 0, 101, 0, 90, 1000⟩]
      = [⟨100, 100, 0, 1000⟩, ⟨101, 0, 90, 1000⟩] := by
    norm_num [Trend.groupByBucket, Trend.upsertAgg]
  have hperm := sortByJs_perm (fun a b : Trend.Zone => decide (|b.delta| ≤ |a.delta|))
    ((Trend.groupByBucket
      [⟨"a", "S", "binance", 0, 100, 100, 0, 1000⟩,
       ⟨"b", "S", "binance", 0, 101, 0, 90, 1000⟩]).map Trend.mkZone)
  have hlen : (sortByJs (fun a b : Trend.Zone => decide (|b.delta| ≤ |a.delta|))
      ((Trend.groupByBucket
        [⟨"a", "S", "binance", 0, 100, 100, 0, 1000⟩,
         ⟨"b", "S", "binance", 0, 101, 0, 90, 1000⟩]).map Trend.mkZone)).length = 2 := by
    rw [hperm.length_eq, hg]
    simp
  have htz : Trend.topZones
      [⟨"a", "S", "binance", 0, 100, 100, 0, 1000⟩,
       ⟨"b", "S", "binance", 0, 101, 0, 90, 1000⟩] 10
      = sortByJs (fun a b : Trend.Zone => decide (|b.delta| ≤ |a.delta|))
          ((Trend.groupByBucket
            [⟨"a", "S", "binance", 0, 100, 100, 0, 1000⟩,
             ⟨"b", "S", "binance", 0, 101, 0, 90, 1000⟩]).map Trend.mkZone) := by
    rw [Trend.topZones]
    exact List.take_of_length_le (by rw [hlen]; norm_num)
  have hperm2 : (Trend.topZones
      [⟨"a", "S", "binance", 0, 100, 100, 0, 1000⟩,
       ⟨"b", "S", "binance", 0, 101, 0, 90, 1000⟩] 10).Perm
        ((Trend.groupByBucket
          [⟨"a", "S", "binance", 0, 100, 100, 0, 1000⟩,
           ⟨"b", "S", "binance", 0, 101, 0, 90, 1000⟩]).map Trend.mkZone) := by
    rw [htz]
    exact hperm
  have hmem : ∀ q : ℚ,
      q ∈ ((Trend.topZones
          [⟨"a", "S", "binance", 0, 100, 100, 0, 1000⟩,
           ⟨"b", "S", "binance", 0, 101, 0, 90, 1000⟩] 10).map (fun z => z.price))
        ↔ q ∈ (((Trend.groupByBucket
            [⟨"a", "S", "binance", 0, 100, 100, 0, 1000⟩,
             ⟨"b", "S", "binance", 0, 101, 0, 90, 1000⟩]).map Trend.mkZone).map
              (fun z => z.price)) :=
    fun _ => (hperm2.map (fun z => z.price)).mem_iff
  refine ⟨?_, ?_, by norm_num⟩
  · rw [hmem 100, hg]
    simp [Trend.mkZone]
  · rw [hmem 101, hg]
    simp [Trend.mkZone]


/-! ### Lemmas about the resumable backfill loop (src/unnamed/part_000) -/

theorem statusRank_ge_one (s : String)
    (h : s = "running" ∨ s = "done" ∨ s = "failed") : 1 ≤ statusRank s := by
  rcases h with h | h | h <;> subst h <;> decide

theorem Agg.runLoop_ok_eq (fetch : Nat → Except String Unit) (endTs : Nat) (row : Agg.JobRow)
    (cur : Nat) (a : Unit) (h : cur ≤ endTs) (heq : fetch cur = Except.ok a) :
    Agg.runLoop fetch endTs row cur =
      ⟨(Agg.runLoop fetch endTs
          (Agg.updateJob row ⟨some (min endTs (cur + windowMs - 1) + 1), some "running", none⟩)
          (min endTs (cur + windowMs - 1) + 1)).row,
       Agg.updateJob row ⟨some (min endTs (cur + windowMs - 1) + 1), some "running", none⟩ ::
         (Agg.runLoop fetch endTs
           (Agg.updateJob row ⟨some (min endTs (cur + windowMs - 1) + 1), some "running", none⟩)
           (min endTs (cur + windowMs - 1) + 1)).trail,
       cur :: (Agg.runLoop fetch endTs
           (Agg.updateJob row ⟨some (min endTs (cur + windowMs - 1) + 1), some "running", none⟩)
           (min endTs (cur + windowMs - 1) + 1)).attempted⟩ := by
  rw [Agg.runLoop]
  simp only [if_pos h, heq]

theorem Agg.runLoop_err_eq (fetch : Nat → Except String Unit) (endTs : Nat) (row : Agg.JobRow)
    (cur : Nat) (e : String) (h : cur ≤ endTs) (heq : fetch cur = Except.error e) :
    Agg.runLoop fetch endTs row cur =
      ⟨Agg.updateJob (Agg.updateJob row ⟨none, some "failed", some e⟩)
          ⟨none, some "failed", some e⟩,
       [Agg.updateJob row ⟨none, some "failed", some e⟩,
        Agg.updateJob (Agg.updateJob row ⟨none, some "failed", some e⟩)
          ⟨none, some "failed", some e⟩],
       [cur]⟩ := by
  rw [Agg.runLoop]
  simp only [if_pos h, heq]

theorem Agg.runLoop_done_eq (fetch : Nat → Except String Unit) (endTs : Nat) (row : Agg.JobRow)
    (cur : Nat) (h : ¬ cur ≤ endTs) :
    Agg.runLoop fetch endTs row cur =
      ⟨Agg.updateJob row ⟨some endTs, some "done", some "completed"⟩,
       [Agg.updateJob row ⟨some endTs, some "done", some "completed"⟩],
       []⟩ := by
  rw [Agg.runLoop]
  simp only [if_neg h]

theorem Agg.runLoop_trail_ne_nil (fetch : Nat → Except String Unit) (endTs : Nat)
    (row : Agg.JobRow) (cur : Nat) : (Agg.runLoop fetch endTs row cur).trail ≠ [] := by
  by_cases h : cur ≤ endTs
  · cases hf : fetch cur with
    | ok a => rw [Agg.runLoop_ok_eq fetch endTs row cur a h hf]; simp
    | error e => rw [Agg.runLoop_err_eq fetch endTs row cur e h hf]; simp
  · rw [Agg.runLoop_done_eq fetch endTs row cur h]; simp

theorem Agg.runBackfill_parts (fetch : Nat → Except String Unit) (row : Agg.JobRow) :
    (Agg.runBackfill fetch row).trail
      = Agg.updateJob row ⟨none, some "running", none⟩ ::
        (Agg.runLoop fetch row.end_ts (Agg.updateJob row ⟨none, some "running", none⟩)
          (if row.current_ts = 0 then row.start_ts else row.current_ts)).trail
    ∧ (Agg.runBackfill fetch row).attempted
      = (Agg.runLoop fetch row.end_ts (Agg.updateJob row ⟨none, some "running", none⟩)
          (if row.current_ts = 0 then row.start_ts else row.current_ts)).attempted
    ∧ (Agg.runBackfill fetch row).row
      = (Agg.runLoop fetch row.end_ts (Agg.updateJob row ⟨none, some "running", none⟩)
          (if row.current_ts = 0 then row.start_ts else row.current_ts)).row :=
  ⟨rfl, rfl, rfl⟩

theorem Agg.runLoop_error_stops (fetch : Nat → Except String Unit) (endTs : Nat) :
    ∀ (row : Agg.JobRow) (cur : Nat),
      ∀ (w : Nat) (e : String),
        e ≠ "" →
        w ∈ (Agg.runLoop fetch endTs row cur).attempted →
        fetch w = Except.error e →
        (Agg.runLoop fetch endTs row cur).row.status = "failed"
        ∧ (Agg.runLoop fetch endTs row cur).row.message = e
        ∧ (Agg.runLoop fetch endTs row cur).attempted.getLast? = some w := by
  intro row cur
  induction row, cur using Agg.runLoop.induct fetch endTs with
  | case1 row cur h wEnd a heq row1 ih =>
      intro w e he hw hfw
      rw [Agg.runLoop_ok_eq fetch endTs row cur a h heq] at hw ⊢
      simp only at hw ⊢
      rcases List.mem_cons.mp hw with h1 | h1
      · subst h1
        rw [heq] at hfw
        cases hfw
      · have h1L : w ∈ (Agg.runLoop fetch endTs row1 (wEnd + 1)).attempted := h1
        obtain ⟨hs, hm, hl⟩ := ih w e he h1L hfw
        refine ⟨hs, hm, ?_⟩
        have hne : (Agg.runLoop fetch endTs row1 (wEnd + 1)).attempted ≠ [] := by
          intro hnil
          rw [hnil] at h1L
          exact absurd h1L (List.not_mem_nil w)
        show (cur :: (Agg.runLoop fetch endTs row1 (wEnd + 1)).attempted).getLast? = some w
        cases hcase : (Agg.runLoop fetch endTs row1 (wEnd + 1)).attempted with
        | nil => exact absurd hcase hne
        | cons x xs =>
            rw [List.getLast?_cons_cons]
            rw [hcase] at hl
            exact hl
  | case2 row cur h a heq =>
      intro w e he hw hfw
      rw [Agg.runLoop_err_eq fetch endTs row cur a h heq] at hw ⊢
      simp only at hw ⊢
      have hwc : w = cur := by simpa using hw
      subst hwc
      rw [heq] at hfw
      have hea : a = e := by injection hfw
      subst hea
      refine ⟨?_, ?_, by simp⟩
      · simp [Agg.updateJob, jsOrStr]
      · simp [Agg.updateJob, jsOrStr, he]
  | case3 row cur h =>
      intro w e he hw hfw
      rw [Agg.runLoop_done_eq fetch endTs row cur h] at hw
      simp at hw

theorem Agg.runLoop_cursor (fetch : Nat → Except String Unit) (endTs : Nat) :
    ∀ (row : Agg.JobRow) (cur : Nat),
      row.current_ts ≤ cur →
      (∀ x ∈ (Agg.runLoop fetch endTs row cur).trail.dropLast, row.current_ts ≤ x.current_ts)
      ∧ List.Chain' (fun a b => a.current_ts ≤ b.current_ts)
          ((Agg.runLoop fetch endTs row cur).trail.dropLast) := by
  intro row cur
  induction row, cur using Agg.runLoop.induct fetch endTs with
  | case1 row cur h wEnd a heq row1 ih =>
      intro hrc
      have hwVal : wEnd = min endTs (cur + windowMs - 1) := rfl
      have hwm := windowMs_pos
      have hr1 : row1.current_ts = wEnd + 1 := rfl
      have hcw : cur ≤ wEnd + 1 := by omega
      obtain ⟨hmem, hchain⟩ := ih (le_of_eq hr1)
      have htr : (Agg.runLoop fetch endTs row cur).trail
          = row1 :: (Agg.runLoop fetch endTs row1 (wEnd + 1)).trail := by
        rw [Agg.runLoop_ok_eq fetch endTs row cur a h heq]
      have hne := Agg.runLoop_trail_ne_nil fetch endTs row1 (wEnd + 1)
      rw [htr, List.dropLast_cons_of_ne_nil hne]
      constructor
      · intro x hx
        rcases List.mem_cons.mp hx with hx1 | hx1
        · rw [hx1, hr1]
          omega
        · have hx2 := hmem x hx1
          rw [hr1] at hx2
          omega
      · rw [List.chain'_cons']
        refine ⟨?_, hchain⟩
        intro y hy
        exact hmem y (List.mem_of_mem_head? hy)
  | case2 row cur h a heq =>
      intro hrc
      have htr : (Agg.runLoop fetch endTs row cur).trail
          = [Agg.updateJob row ⟨none, some "failed", some a⟩,
             Agg.updateJob (Agg.updateJob row ⟨none, some "failed", some a⟩)
               ⟨none, some "failed", some a⟩] := by
        rw [Agg.runLoop_err_eq fetch endTs row cur a h heq]
      rw [htr]
      constructor
      · intro x hx
        simp only [List.dropLast_cons₂, List.dropLast_single, List.mem_singleton] at hx
        rw [hx]
        exact le_refl _
      · simp
  | case3 row cur h =>
      intro hrc
      rw [Agg.runLoop_done_eq fetch endTs row cur h]
      simp

theorem Agg.runLoop_attempted_chain (fetch : Nat → Except String Unit) (endTs : Nat) :
    ∀ (row : Agg.JobRow) (cur : Nat),
      List.Chain' (fun a b => a < b) (Agg.runLoop fetch endTs row cur).attempted
      ∧ ∀ w ∈ (Agg.runLoop fetch endTs row cur).attempted, cur ≤ w := by
  intro row cur
  induction row, cur using Agg.runLoop.induct fetch endTs with
  | case1 row cur h wEnd a heq row1 ih =>
      have hwVal : wEnd = min endTs (cur + windowMs - 1) := rfl
      have hwm := windowMs_pos
      obtain ⟨hch, hlb⟩ := ih
      have hatt : (Agg.runLoop fetch endTs row cur).attempted
          = cur :: (Agg.runLoop fetch endTs row1 (wEnd + 1)).attempted := by
        rw [Agg.runLoop_ok_eq fetch endTs row cur a h heq]
      rw [hatt]
      constructor
      · rw [List.chain'_cons']
        refine ⟨?_, hch⟩
        intro y hy
        have hmy := hlb y (List.mem_of_mem_head? hy)
        omega
      · intro w hw
        rcases List.mem_cons.mp hw with h1 | h1
        · omega
        · have := hlb w h1
          omega
  | case2 row cur h a heq =>
      rw [Agg.runLoop_err_eq fetch endTs row cur a h heq]
      constructor
      · simp
      · intro w hw
        simp at hw
        omega
  | case3 row cur h =>
      rw [Agg.runLoop_done_eq fetch endTs row cur h]
      constructor
      · simp
      · intro w hw
        simp at hw

theorem Agg.runLoop_status_chain (fetch : Nat → Except String Unit) (endTs : Nat) :
    ∀ (row : Agg.JobRow) (cur : Nat),
      (∀ s ∈ (Agg.runLoop fetch endTs row cur).trail.map (fun r => r.status),
          s = "running" ∨ s = "done" ∨ s = "failed")
      ∧ List.Chain' (fun a b => statusRank a ≤ statusRank b)
          ((Agg.runLoop fetch endTs row cur).trail.map (fun r => r.status)) := by
  intro row cur
  induction row, cur using Agg.runLoop.induct fetch endTs with
  | case1 row cur h wEnd a heq row1 ih =>
      obtain ⟨hmem, hch⟩ := ih
      have htr : (Agg.runLoop fetch endTs row cur).trail
          = row1 :: (Agg.runLoop fetch endTs row1 (wEnd + 1)).trail := by
        rw [Agg.runLoop_ok_eq fetch endTs row cur a h heq]
      have hs1 : row1.status = "running" := by
        show (Agg.updateJob row ⟨some (wEnd + 1), some "running", none⟩).status = "running"
        simp [Agg.updateJob, jsOrStr]
      rw [htr, List.map_cons, hs1]
      constructor
      · intro s hs
        rcases List.mem_cons.mp hs with h1 | h1
        · exact Or.inl h1
        · exact hmem s h1
      · rw [List.chain'_cons']
        refine ⟨?_, hch⟩
        intro y hy
        have hry := statusRank_ge_one y (hmem y (List.mem_of_mem_head? hy))
        have hrun : statusRank "running" = 1 := rfl
        omega
  | case2 row cur h a heq =>
      rw [Agg.runLoop_err_eq fetch endTs row cur a h heq]
      have hs1 : (Agg.updateJob row ⟨none, some "failed", some a⟩).status = "failed" := by
        simp [Agg.updateJob, jsOrStr]
      have hs2 : (Agg.updateJob (Agg.updateJob row ⟨none, some "failed", some a⟩)
          ⟨none, some "failed", some a⟩).status = "failed" := by
        simp [Agg.updateJob, jsOrStr]
      simp only [List.map_cons, List.map_nil, hs1, hs2]
      constructor
      · intro s hs
        simp at hs
        rw [hs]
        exact Or.inr (Or.inr rfl)
      · rw [List.chain'_cons']
        refine ⟨?_, List.chain'_singleton _⟩
        intro y hy
        simp at hy
        rw [hy]
  | case3 row cur h =>
      rw [Agg.runLoop_done_eq fetch endTs row cur h]
      have hs1 : (Agg.updateJob row ⟨some endTs, some "done", some "completed"⟩).status
          = "done" := by
        simp [Agg.updateJob, jsOrStr]
      simp only [List.map_cons, List.map_nil, hs1]
      constructor
      · intro s hs
        simp at hs
        rw [hs]
        exact Or.inr (Or.inl rfl)
      · exact List.chain'_singleton _


/-! ### Lemmas about the minute-bin backfill loop (src/server/index.js) -/

theorem Trend.jobWindows_pos_eq (s now : Nat) (h : s < now) :
    Trend.jobWindows s now = s :: Trend.jobWindows (s + windowMs) now := by
  conv_lhs => rw [Trend.jobWindows]
  simp [h]

theorem Trend.jobWindows_neg_eq (s now : Nat) (h : ¬ s < now) :
    Trend.jobWindows s now = [] := by
  conv_lhs => rw [Trend.jobWindows]
  simp [h]

theorem Trend.jobLoop_runs_to_done (fetch : Nat → Except String (List Trend.Trade))
    (sym ex : String) (bsz : ℚ) (now : Nat) :
    ∀ (ws : List Nat) (bins : List Trend.Bin),
      (Trend.jobLoop fetch true sym ex bsz now ws bins).status = "done"
      ∧ (Trend.jobLoop fetch true sym ex bsz now ws bins).attempted = ws := by
  intro ws
  induction ws with
  | nil => exact fun bins => ⟨rfl, rfl⟩
  | cons s rest ih =>
      intro bins
      cases hf : fetch s with
      | ok trades =>
          simp only [Trend.jobLoop, hf, if_true]
          obtain ⟨h1, h2⟩ := ih
            (if trades.isEmpty then bins else Trend.ingestTrades bins trades sym ex bsz now)
          exact ⟨h1, by rw [h2]⟩
      | error e =>
          simp only [Trend.jobLoop, hf, if_true]
          obtain ⟨h1, h2⟩ := ih bins
          exact ⟨h1, by rw [h2]⟩

theorem Trend.jobLoop_status_chain (fetch : Nat → Except String (List Trend.Trade))
    (hasF : Bool) (sym ex : String) (bsz : ℚ) (now : Nat) :
    ∀ (ws : List Nat) (bins : List Trend.Bin),
      (∀ st ∈ (Trend.jobLoop fetch hasF sym ex bsz now ws bins).trail.map (fun p => p.1),
          st = "running" ∨ st = "done" ∨ st = "failed")
      ∧ List.Chain' (fun a b => statusRank a ≤ statusRank b)
          ((Trend.jobLoop fetch hasF sym ex bsz now ws bins).trail.map (fun p => p.1)) := by
  intro ws
  induction ws with
  | nil =>
      intro bins
      constructor
      · intro st hst
        simp [Trend.jobLoop] at hst
        rw [hst]
        exact Or.inr (Or.inl rfl)
      · simp [Trend.jobLoop]
  | cons s rest ih =>
      intro bins
      cases hasF with
      | false =>
          constructor
          · intro st hst
            simp [Trend.jobLoop] at hst
            rw [hst]
            exact Or.inr (Or.inr rfl)
          · simp [Trend.jobLoop]
      | true =>
          cases hf : fetch s with
          | ok trades =>
              simp only [Trend.jobLoop, hf, if_true, List.map_cons]
              obtain ⟨hmem, hch⟩ := ih
                (if trades.isEmpty then bins
                 else Trend.ingestTrades bins trades sym ex bsz now)
              constructor
              · intro st hst
                rcases List.mem_cons.mp hst with h1 | h1
                · exact Or.inl h1
                · exact hmem st h1
              · rw [List.chain'_cons']
                refine ⟨?_, hch⟩
                intro y hy
                have hry := statusRank_ge_one y (hmem y (List.mem_of_mem_head? hy))
                have hrun : statusRank "running" = 1 := rfl
                omega
          | error e =>
              simp only [Trend.jobLoop, hf, if_true, List.map_cons]
              obtain ⟨hmem, hch⟩ := ih bins
              constructor
              · intro st hst
                rcases List.mem_cons.mp hst with h1 | h1
                · exact Or.inl h1
                · exact hmem st h1
              · rw [List.chain'_cons']
                refine ⟨?_, hch⟩
                intro y hy
                have hry := statusRank_ge_one y (hmem y (List.mem_of_mem_head? hy))
                have hrun : statusRank "running" = 1 := rfl
                omega

/-! ### The backfill-engine claims -/

/-- C1 (amended): in the resumable engine of src/unnamed/part_000, a
window whose fetch still fails after the bounded retries sets
`status='failed'` with the error recorded in `message`, and the failing
window is the last one attempted — no later window is processed and the
job is never marked `done`.  The engine of src/server/index.js, however,
only records a failed window's error in `message`, attempts every window
regardless, and always ends with `status='done'`. -/
theorem backfill_failed_window_terminal :
    (∀ (fetch : Nat → Except String Unit) (row : Agg.JobRow) (w : Nat) (e : String),
        e ≠ "" →
        w ∈ (Agg.runBackfill fetch row).attempted →
        fetch w = Except.error e →
        (Agg.runBackfill fetch row).row.status = "failed"
        ∧ (Agg.runBackfill fetch row).row.message = e
        ∧ (Agg.runBackfill fetch row).attempted.getLast? = some w)
    ∧ ∀ (fetch : Nat → Except String (List Trend.Trade)) (sym ex : String) (bsz : ℚ)
        (bins : List Trend.Bin) (fromTs now : Nat),
        (Trend.runBackfillJob fetch true sym ex bsz bins fromTs now).status = "done"
        ∧ (Trend.runBackfillJob fetch true sym ex bsz bins fromTs now).attempted
            = Trend.jobWindows fromTs now := by
  constructor
  · intro fetch row w e he hw hfw
    obtain ⟨ht, ha, hr⟩ := Agg.runBackfill_parts fetch row
    rw [ha] at hw
    rw [hr, ha]
    exact Agg.runLoop_error_stops fetch row.end_ts _ _ w e he hw hfw
  · intro fetch sym ex bsz bins fromTs now
    exact Trend.jobLoop_runs_to_done fetch sym ex bsz now (Trend.jobWindows fromTs now) bins

/-- Counterexample for C1: in src/server/index.js, with the first of two
windows exhausting its retries, the runner still attempts the second
window and marks the job `done` — it does not stop, and the job is not
`failed`. -/
theorem trend_backfill_continues_after_failed_window :
    ((fun w => if w = 0 then Except.error "boom"
               else Except.ok ([] : List Trend.Trade)) 0 = Except.error "boom")
    ∧ (Trend.runBackfillJob
        (fun w => if w = 0 then Except.error "boom"
                  else Except.ok ([] : List Trend.Trade))
        true "BTCUSDT" "binance" 1 [] 0 7200000).status = "done"
    ∧ (Trend.runBackfillJob
        (fun w => if w = 0 then Except.error "boom"
                  else Except.ok ([] : List Trend.Trade))
        true "BTCUSDT" "binance" 1 [] 0 7200000).attempted = [0, 3600000] := by
  refine ⟨rfl, ?_, ?_⟩ <;>
    simp [Trend.runBackfillJob, Trend.jobLoop, Trend.jobWindows, windowMs]

/-- Witness for C1 at a concrete failing fetch: the second of three
windows errors, the run stops there with `status='failed'`, and the
src/server/index.js runner with a failing fetch still ends `done`. -/
theorem backfill_failed_window_terminal_witness :
    ("boom" ≠ ""
      ∧ 3600000 ∈ (Agg.runBackfill
          (fun w => if w = 3600000 then Except.error "boom" else Except.ok ())
          (Agg.createBackfillJob "j" "BTCUSDT" "binance" 0 7200000)).attempted
      ∧ (fun w => if w = 3600000 then Except.error "boom" else Except.ok ()) 3600000
          = Except.error "boom")
    ∧ ((Agg.runBackfill
          (fun w => if w = 3600000 then Except.error "boom" else Except.ok ())
          (Agg.createBackfillJob "j" "BTCUSDT" "binance" 0 7200000)).row.status = "failed"
        ∧ (Agg.runBackfill
            (fun w => if w = 3600000 then Except.error "boom" else Except.ok ())
            (Agg.createBackfillJob "j" "BTCUSDT" "binance" 0 7200000)).row.message = "boom"
        ∧ (Agg.runBackfill
            (fun w => if w = 3600000 then Except.error "boom" else Except.ok ())
            (Agg.createBackfillJob "j" "BTCUSDT" "binance" 0 7200000)).attempted.getLast?
            = some 3600000)
    ∧ ((Trend.runBackfillJob (fun _ => Except.error "x") true "S" "binance" 1 [] 0 1).status
          = "done"
        ∧ (Trend.runBackfillJob (fun _ => Except.error "x") true "S" "binance" 1 [] 0 1).attempted
            = Trend.jobWindows 0 1) := by
  have hmem : 3600000 ∈ (Agg.runBackfill
      (fun w => if w = 3600000 then Except.error "boom" else Except.ok ())
      (Agg.createBackfillJob "j" "BTCUSDT" "binance" 0 7200000)).attempted := by
    simp [Agg.runBackfill, Agg.runLoop, Agg.createBackfillJob, Agg.updateJob, windowMs,
      Nat.min_def, jsOrStr]
  refine ⟨⟨by decide, hmem, rfl⟩, ?_, ?_⟩
  · exact backfill_failed_window_terminal.1
      (fun w => if w = 3600000 then Except.error "boom" else Except.ok ())
      (Agg.createBackfillJob "j" "BTCUSDT" "binance" 0 7200000)
      3600000 "boom" (by decide) hmem rfl
  · exact backfill_failed_window_terminal.2 (fun _ => Except.error "x") "S" "binance" 1 [] 0 1

/-- C2 (amended): within one run of the resumable engine, every persisted
checkpoint except the final one carries a non-decreasing cursor, and the
attempted window starts are strictly increasing; but the final `done`
update (which rewrites `current_ts` to `end_ts` after the last `running`
checkpoint already persisted `end_ts + 1`) is excluded — it moves the
cursor back by one. -/
theorem backfill_cursor_and_windows_monotone :
    ∀ (fetch : Nat → Except String Unit) (row : Agg.JobRow),
      List.Chain' (fun a b => a.current_ts ≤ b.current_ts)
        (Agg.runBackfill fetch row).trail.dropLast
      ∧ List.Chain' (fun a b => a < b) (Agg.runBackfill fetch row).attempted := by
  intro fetch row
  obtain ⟨ht, ha, hr⟩ := Agg.runBackfill_parts fetch row
  constructor
  · rw [ht]
    have hrc : (Agg.updateJob row ⟨none, some "running", none⟩).current_ts
        ≤ (if row.current_ts = 0 then row.start_ts else row.current_ts) := by
      simp only [Agg.updateJob, Option.getD]
      split <;> omega
    obtain ⟨hmem, hchain⟩ := Agg.runLoop_cursor fetch row.end_ts _ _ hrc
    have hne := Agg.runLoop_trail_ne_nil fetch row.end_ts
      (Agg.updateJob row ⟨none, some "running", none⟩)
      (if row.current_ts = 0 then row.start_ts else row.current_ts)
    rw [List.dropLast_cons_of_ne_nil hne, List.chain'_cons']
    refine ⟨?_, hchain⟩
    intro y hy
    exact hmem y (List.mem_of_mem_head? hy)
  · rw [ha]
    exact (Agg.runLoop_attempted_chain fetch row.end_ts _ _).1

/-- Counterexample for C2: a fully successful two-checkpoint run over
`[0, 5]` persists the cursor values `0, 6, 5` — the final `done` update
writes `current_ts = end_ts = 5` after the last `running` checkpoint
already wrote `6`, so the persisted cursor is not non-decreasing across
every checkpoint write. -/
theorem backfill_done_write_moves_cursor_back :
    ((Agg.runBackfill (fun _ => Except.ok ())
        (Agg.createBackfillJob "j" "BTCUSDT" "binance" 0 5)).trail.map
          (fun r => r.current_ts)) = [0, 6, 5]
    ∧ ¬ List.Chain' (fun a b => a ≤ b)
        ((Agg.runBackfill (fun _ => Except.ok ())
          (Agg.createBackfillJob "j" "BTCUSDT" "binance" 0 5)).trail.map
            (fun r => r.current_ts)) := by
  have h : ((Agg.runBackfill (fun _ => Except.ok ())
      (Agg.createBackfillJob "j" "BTCUSDT" "binance" 0 5)).trail.map
        (fun r => r.current_ts)) = [0, 6, 5] := by
    simp [Agg.runBackfill, Agg.runLoop, Agg.createBackfillJob, Agg.updateJob, windowMs,
      Nat.min_def, jsOrStr]
  refine ⟨h, ?_⟩
  rw [h]
  intro hch
  rw [List.chain'_cons, List.chain'_cons] at hch
  obtain ⟨h1, h2, h3⟩ := hch
  omega

/-- C5 (amended): the multi-exchange engine creates its jobs in status
`pending` and both engines only move a job forward along
`created → running → done | failed`: every persisted status of a run
ranks at least as high as the one before it, and neither engine ever
writes `pending`/`queued` back.  The minute-bin engine of
src/server/index.js, however, creates its jobs in status `queued`, not
`pending`.  Job creation returns the fresh job id with the run detached:
the created row is a pure function of the request, independent of the
run's outcome. -/
theorem job_status_lifecycle :
    (∀ (jid sym ex : String) (s e : Nat),
        (Agg.createBackfillJob jid sym ex s e).status = "pending")
    ∧ (∀ (fetch : Nat → Except String Unit) (row : Agg.JobRow),
        List.Chain' (fun a b => statusRank a ≤ statusRank b)
          ("pending" :: (Agg.runBackfill fetch row).trail.map (fun r => r.status)))
    ∧ (∀ (fetch : Nat → Except String Unit) (row : Agg.JobRow),
        ∀ s ∈ (Agg.runBackfill fetch row).trail.map (fun r => r.status),
          s = "running" ∨ s = "done" ∨ s = "failed")
    ∧ (∀ (jid sym ex : String) (now : Nat), (Trend.mkJob jid sym ex now).status = "queued")
    ∧ ∀ (fetch : Nat → Except String (List Trend.Trade)) (hasF : Bool) (sym ex : String)
        (bsz : ℚ) (bins : List Trend.Bin) (fromTs now : Nat),
        List.Chain' (fun a b => statusRank a ≤ statusRank b)
          ("queued" :: (Trend.runBackfillJob fetch hasF sym ex bsz bins fromTs now).trail.map
            (fun p => p.1)) := by
  have hAggMem : ∀ (fetch : Nat → Except String Unit) (row : Agg.JobRow),
      ∀ s ∈ (Agg.runBackfill fetch row).trail.map (fun r => r.status),
        s = "running" ∨ s = "done" ∨ s = "failed" := by
    intro fetch row s hs
    obtain ⟨ht, ha, hr⟩ := Agg.runBackfill_parts fetch row
    rw [ht, List.map_cons] at hs
    rcases List.mem_cons.mp hs with h1 | h1
    · have hs0 : (Agg.updateJob row ⟨none, some "running", none⟩).status = "running" := by
        simp [Agg.updateJob, jsOrStr]
      rw [hs0] at h1
      exact Or.inl h1
    · exact (Agg.runLoop_status_chain fetch row.end_ts _ _).1 s h1
  refine ⟨fun jid sym ex s e => rfl, ?_, hAggMem, fun jid sym ex now => rfl, ?_⟩
  · intro fetch row
    obtain ⟨ht, ha, hr⟩ := Agg.runBackfill_parts fetch row
    rw [ht, List.map_cons]
    have hs0 : (Agg.updateJob row ⟨none, some "running", none⟩).status = "running" := by
      simp [Agg.updateJob, jsOrStr]
    rw [hs0]
    rw [List.chain'_cons']
    constructor
    · intro y hy
      have h3 : "running" = y := by simpa using hy
      rw [← h3]
      decide
    · rw [List.chain'_cons']
      constructor
      · intro y hy
        have hmem := (Agg.runLoop_status_chain fetch row.end_ts _ _).1 y
          (List.mem_of_mem_head? hy)
        have hry := statusRank_ge_one y hmem
        have hrun : statusRank "running" = 1 := rfl
        omega
      · exact (Agg.runLoop_status_chain fetch row.end_ts _ _).2
  · intro fetch hasF sym ex bsz bins fromTs now
    have htr : (Trend.runBackfillJob fetch hasF sym ex bsz bins fromTs now).trail
        = ("running", "starting") ::
          (Trend.jobLoop fetch hasF sym ex bsz now (Trend.jobWindows fromTs now) bins).trail :=
      rfl
    rw [htr, List.map_cons]
    have hfst : (("running", "starting") : String × String).1 = "running" := rfl
    rw [hfst]
    rw [List.chain'_cons']
    constructor
    · intro y hy
      have h3 : "running" = y := by simpa using hy
      rw [← h3]
      decide
    · rw [List.chain'_cons']
      constructor
      · intro y hy
        have hmem := (Trend.jobLoop_status_chain fetch hasF sym ex bsz now _ bins).1 y
          (List.mem_of_mem_head? hy)
        have hry := statusRank_ge_one y hmem
        have hrun : statusRank "running" = 1 := rfl
        omega
      · exact (Trend.jobLoop_status_chain fetch hasF sym ex bsz now _ bins).2

/-- Counterexample for C5: a job created by `POST /api/backfill` of
src/server/index.js starts in status `queued`, not `pending`. -/
theorem trend_job_created_queued :
    (Trend.mkJob "j1" "BTCUSDT" "binance" 1000).status = "queued"
    ∧ (Trend.mkJob "j1" "BTCUSDT" "binance" 1000).status ≠ "pending" :=
  ⟨rfl, by decide⟩

/-- Witness for C5 at a concrete run: `running` is among the persisted
statuses of a successful run and is a legal mid-run status. -/
theorem job_status_lifecycle_witness :
    ((Agg.createBackfillJob "j" "S" "binance" 0 5).status = "pending")
    ∧ ("running" ∈ (Agg.runBackfill (fun _ => Except.ok ())
        (Agg.createBackfillJob "j" "S" "binance" 0 5)).trail.map (fun r => r.status)
      ∧ ("running" = "running" ∨ "running" = "done" ∨ "running" = "failed"))
    ∧ (Trend.mkJob "j" "S" "binance" 0).status = "queued" := by
  have hmem : "running" ∈ (Agg.runBackfill (fun _ => Except.ok ())
      (Agg.createBackfillJob "j" "S" "binance" 0 5)).trail.map (fun r => r.status) := by
    simp [Agg.runBackfill, Agg.runLoop, Agg.createBackfillJob, Agg.updateJob, windowMs,
      Nat.min_def, jsOrStr]
  exact ⟨job_status_lifecycle.1 "j" "S" "binance" 0 5,
    ⟨hmem, job_status_lifecycle.2.2.1 (fun _ => Except.ok ())
      (Agg.createBackfillJob "j" "S" "binance" 0 5) "running" hmem⟩,
    job_status_lifecycle.2.2.2.1 "j" "S" "binance" 0⟩
